import Mathlib

/-!
Verification of the mixup/cutmix augmentation engine and the training-loop
orchestration of this repository.

The batch dimension is modelled by the index type `ZMod n`, so that
`torch.roll(t, shifts=s, dims=0)` (whose output at index `i` is the input at
index `(i - s) mod n`) becomes the function `permute` below.  Host-side
randomness (Beta draws, uniform draws) is passed in as explicit inputs.
Real-valued device arithmetic is modelled over `ℝ`; exact host arithmetic
over `ℚ` where no irrational function occurs.
-/

namespace Augmentations

/-- `AugmentationModel._permute(tensor, shifts)`, i.e.
`torch.roll(tensor, shifts=shifts, dims=0)`: the output at batch index `i`
is the input at batch index `i - shifts` (cyclically). -/
def permute {n : ℕ} {α : Type*} (tensor : ZMod n → α) (shifts : ℕ) : ZMod n → α :=
  fun i => tensor (i - (shifts : ZMod n))

/-- `sample_mixup_coefficients`: the Beta(alpha, alpha) draws are passed in
as the list `draws`; each draw `x` is reflected to `max x (1 - x)`
(`np.maximum(coefficients, 1.0 - coefficients)`). -/
def sample_mixup_coefficients (draws : List ℚ) : List ℚ :=
  draws.map (fun x => max x (1 - x))

/-- `AugmentationModel._mixup(batch, coeffs)`:
`coeffs * batch + (1.0 - coeffs) * self._permute(batch, 1)`, the coefficient
of sample `i` broadcast over the channel (`C`), height (`Y`) and width (`X`)
dimensions exactly as `coeffs.reshape((coeffs.shape[0], 1, 1, 1))` does. -/
def mixup {n : ℕ} {K : Type*} [CommRing K] {C Y X : Type*}
    (batch : ZMod n → C → Y → X → K) (coeffs : ZMod n → K) :
    ZMod n → C → Y → X → K :=
  fun i c y x => coeffs i * batch i c y x + (1 - coeffs i) * permute batch 1 i c y x

/-- `AugmentationModel._sample_cutmix_coeff`: if the configured bounds are
equal the coefficient is the fixed constant `lambda_low`, otherwise the
uniform draw `uniform_draw` from `Uniform(lambda_low, lambda_high)`; then
`torch.where(torch.rand(()) < disable_prob, 1.0, coeff)` overrides it to
`1.0` when the disable draw falls below the disable probability. -/
noncomputable def sample_cutmix_coeff (lambda_low lambda_high uniform_draw disable_draw disable_prob : ℝ) : ℝ :=
  let coeff := if lambda_low = lambda_high then lambda_low else uniform_draw
  if disable_draw < disable_prob then 1 else coeff

/-- `AugmentationModel.mix_labels(labels, coeffs)`.  The per-batch cutmix
coefficient (a 0-dim tensor in the code) is broadcast to a per-sample weight
vector; the `ValueError` raised when neither augmentation is enabled is
modelled by `none`. -/
def mix_labels {n : ℕ} {K : Type*} [CommRing K] {α : Type*}
    (use_mixup use_cutmix : Bool) (labels : ZMod n → α)
    (mixup_coeffs : ZMod n → K) (cutmix_coeff : K) :
    Option (List (ZMod n → α) × List (ZMod n → K)) :=
  if use_mixup && use_cutmix then
    let permuted_mixup_coeffs := permute mixup_coeffs 2
    some ([labels, permute labels 1, permute labels 2, permute labels 3],
      [fun i => mixup_coeffs i * cutmix_coeff,
       fun i => (1 - mixup_coeffs i) * cutmix_coeff,
       fun i => permuted_mixup_coeffs i * (1 - cutmix_coeff),
       fun i => (1 - permuted_mixup_coeffs i) * (1 - cutmix_coeff)])
  else if use_mixup then
    some ([labels, permute labels 1],
      [fun i => mixup_coeffs i, fun i => 1 - mixup_coeffs i])
  else if use_cutmix then
    some ([labels, permute labels 2],
      [fun _ => cutmix_coeff, fun _ => 1 - cutmix_coeff])
  else
    none

/-! `AugmentationModel._cutmix(batch, coeff)`.  The image is `height × width`
pixels; the two `torch.rand((1,))` draws used to place the cut box centre are
passed in as the inputs `rx, ry ∈ [0, 1)`.  `torch.round` is modelled by
`round`. -/

/-- `cut_width = width * torch.sqrt(1.0 - coeff)`. -/
noncomputable def cut_width (width : ℕ) (coeff : ℝ) : ℝ :=
  width * Real.sqrt (1 - coeff)

/-- `cut_height = height * torch.sqrt(1.0 - coeff)`. -/
noncomputable def cut_height (height : ℕ) (coeff : ℝ) : ℝ :=
  height * Real.sqrt (1 - coeff)

/-- `cut_center_x = (width - cut_width) * torch.rand((1,)) + (cut_width / 2.0)`. -/
noncomputable def cut_center_x (width : ℕ) (coeff rx : ℝ) : ℝ :=
  (width - cut_width width coeff) * rx + cut_width width coeff / 2

/-- `cut_center_y = (height - cut_height) * torch.rand((1,)) + (cut_height / 2.0)`. -/
noncomputable def cut_center_y (height : ℕ) (coeff ry : ℝ) : ℝ :=
  (height - cut_height height coeff) * ry + cut_height height coeff / 2

/-- `cut_x1 = torch.round(cut_center_x - cut_width / 2.0).to(torch.int32)`. -/
noncomputable def cut_x1 (width : ℕ) (coeff rx : ℝ) : ℤ :=
  round (cut_center_x width coeff rx - cut_width width coeff / 2)

/-- `cut_x2 = torch.round(cut_center_x + cut_width / 2.0).to(torch.int32)`. -/
noncomputable def cut_x2 (width : ℕ) (coeff rx : ℝ) : ℤ :=
  round (cut_center_x width coeff rx + cut_width width coeff / 2)

/-- `cut_y1 = torch.round(cut_center_y - cut_height / 2.0).to(torch.int32)`. -/
noncomputable def cut_y1 (height : ℕ) (coeff ry : ℝ) : ℤ :=
  round (cut_center_y height coeff ry - cut_height height coeff / 2)

/-- `cut_y2 = torch.round(cut_center_y + cut_height / 2.0).to(torch.int32)`. -/
noncomputable def cut_y2 (height : ℕ) (coeff ry : ℝ) : ℤ :=
  round (cut_center_y height coeff ry + cut_height height coeff / 2)

/-- `xs_mask = (xs >= cut_x1).to(torch.int32) * (xs < cut_x2).to(torch.int32)`
with `xs = torch.arange(width)`. -/
noncomputable def xs_mask (width : ℕ) (coeff rx : ℝ) (x : Fin width) : Bool :=
  decide (cut_x1 width coeff rx ≤ (x : ℤ)) && decide ((x : ℤ) < cut_x2 width coeff rx)

/-- `ys_mask = (ys >= cut_y1).to(torch.int32) * (ys < cut_y2).to(torch.int32)`
with `ys = torch.arange(height)`. -/
noncomputable def ys_mask (height : ℕ) (coeff ry : ℝ) (y : Fin height) : Bool :=
  decide (cut_y1 height coeff ry ≤ (y : ℤ)) && decide ((y : ℤ) < cut_y2 height coeff ry)

/-- `mask = xs_mask * ys_mask.reshape((height, 1))`: entry `(y, x)` is set
iff both the column and the row mask are set. -/
noncomputable def cutmix_mask (height width : ℕ) (coeff rx ry : ℝ)
    (y : Fin height) (x : Fin width) : Bool :=
  xs_mask width coeff rx x && ys_mask height coeff ry y

/-- `torch.mean(mask.to(torch.float32))`: the sum of the 0/1 mask entries
divided by the number `height * width` of pixels. -/
noncomputable def mean_mask (height width : ℕ) (coeff rx ry : ℝ) : ℝ :=
  (∑ y : Fin height, ∑ x : Fin width,
    if cutmix_mask height width coeff rx ry y x then (1 : ℝ) else 0) /
    (height * width)

/-- The effective coefficient returned by `_cutmix`:
`coeff = torch.tensor(1.0) - torch.mean(mask.to(torch.float32))`. -/
noncomputable def cutmix_coeff_out (height width : ℕ) (coeff rx ry : ℝ) : ℝ :=
  1 - mean_mask height width coeff rx ry

/-- The mixed batch returned by `_cutmix`:
`torch.where(mask.to(torch.bool), self._permute(batch, 2), batch)`, the mask
broadcast over the batch (`ZMod n`) and channel (`C`) dimensions. -/
noncomputable def cutmix_batch_out {n : ℕ} {C : Type*} (height width : ℕ)
    (batch : ZMod n → C → Fin height → Fin width → ℝ) (coeff rx ry : ℝ) :
    ZMod n → C → Fin height → Fin width → ℝ :=
  fun i c y x =>
    if cutmix_mask height width coeff rx ry y x then permute batch 2 i c y x
    else batch i c y x

/-- Number of set pixels of the cut-box mask. -/
noncomputable def maskCount (height width : ℕ) (coeff rx ry : ℝ) : ℕ :=
  ((Finset.univ : Finset (Fin height × Fin width)).filter
    (fun p => cutmix_mask height width coeff rx ry p.1 p.2 = true)).card

/-- `AugmentationModel.forward` when both augmentations are enabled:
`batch = self._mixup(batch, mixup_coeffs)` followed by
`batch, cutmix_coeff = self._cutmix(batch, cutmix_coeff)`. -/
noncomputable def forward_both {n : ℕ} {C : Type*} (height width : ℕ)
    (batch : ZMod n → C → Fin height → Fin width → ℝ)
    (mixup_coeffs : ZMod n → ℝ) (coeff rx ry : ℝ) :
    ZMod n → C → Fin height → Fin width → ℝ :=
  cutmix_batch_out height width (mixup batch mixup_coeffs) coeff rx ry

end Augmentations

open Augmentations in
/-- C1: in each enabled mode (mixup only, cutmix only, both) the per-sample
weights returned by `AugmentationModel.mix_labels` sum to exactly 1 at every
sample position `i`: `m + (1-m) = 1`, `c + (1-c) = 1`, and
`m*c + (1-m)*c + roll2(m)*(1-c) + (1-roll2(m))*(1-c) = 1`. -/
theorem mix_labels_weights_sum_one {n : ℕ} {K : Type*} [CommRing K] {α : Type*}
    (use_mixup use_cutmix : Bool) (labels : ZMod n → α)
    (mixup_coeffs : ZMod n → K) (cutmix_coeff : K)
    (p : List (ZMod n → α) × List (ZMod n → K))
    (hp : mix_labels use_mixup use_cutmix labels mixup_coeffs cutmix_coeff = some p)
    (i : ZMod n) :
    (p.2.map (fun weight => weight i)).sum = 1 := by
  cases use_mixup <;> cases use_cutmix
  · exact Option.noConfusion hp
  · injection hp with hp
    subst hp
    simp only [List.map_cons, List.map_nil, List.sum_cons, List.sum_nil]
    ring
  · injection hp with hp
    subst hp
    simp only [List.map_cons, List.map_nil, List.sum_cons, List.sum_nil]
    ring
  · injection hp with hp
    subst hp
    simp only [List.map_cons, List.map_nil, List.sum_cons, List.sum_nil]
    ring

/-- C1 witness: concrete evaluation in the both-enabled mode with
`n = 3`, `m = 1/3`, `c = 1/4`. -/
theorem mix_labels_weights_sum_one_witness :
    (Augmentations.mix_labels (n := 3) (K := ℚ) (α := ℚ) true true (fun _ => 0)
      (fun _ => 1/3) (1/4) =
      some ([fun _ => (0 : ℚ), Augmentations.permute (fun _ => (0 : ℚ)) 1,
             Augmentations.permute (fun _ => (0 : ℚ)) 2,
             Augmentations.permute (fun _ => (0 : ℚ)) 3],
            [fun i => (fun _ : ZMod 3 => (1/3 : ℚ)) i * (1/4),
             fun i => (1 - (fun _ : ZMod 3 => (1/3 : ℚ)) i) * (1/4),
             fun i => Augmentations.permute (fun _ : ZMod 3 => (1/3 : ℚ)) 2 i * (1 - 1/4),
             fun i => (1 - Augmentations.permute (fun _ : ZMod 3 => (1/3 : ℚ)) 2 i) * (1 - 1/4)])) ∧
    ((([fun i => (fun _ : ZMod 3 => (1/3 : ℚ)) i * (1/4),
        fun i => (1 - (fun _ : ZMod 3 => (1/3 : ℚ)) i) * (1/4),
        fun i => Augmentations.permute (fun _ : ZMod 3 => (1/3 : ℚ)) 2 i * (1 - 1/4),
        fun i => (1 - Augmentations.permute (fun _ : ZMod 3 => (1/3 : ℚ)) 2 i) * (1 - 1/4)] :
          List (ZMod 3 → ℚ)).map (fun weight => weight 0)).sum = 1) :=
  ⟨rfl,
    mix_labels_weights_sum_one (n := 3) (K := ℚ) (α := ℚ) true true (fun _ => 0)
      (fun _ => 1/3) (1/4)
      ([fun _ => (0 : ℚ), Augmentations.permute (fun _ => (0 : ℚ)) 1,
        Augmentations.permute (fun _ => (0 : ℚ)) 2,
        Augmentations.permute (fun _ => (0 : ℚ)) 3],
       [fun i => (fun _ : ZMod 3 => (1/3 : ℚ)) i * (1/4),
        fun i => (1 - (fun _ : ZMod 3 => (1/3 : ℚ)) i) * (1/4),
        fun i => Augmentations.permute (fun _ : ZMod 3 => (1/3 : ℚ)) 2 i * (1 - 1/4),
        fun i => (1 - Augmentations.permute (fun _ : ZMod 3 => (1/3 : ℚ)) 2 i) * (1 - 1/4)])
      rfl 0⟩

open Augmentations in
/-- C3: every element of the vector returned by `sample_mixup_coefficients`
lies in `[1/2, 1]`, given that every Beta(alpha, alpha) draw lies in the
support `[0, 1]` of the Beta distribution. -/
theorem sample_mixup_coefficients_mem_Icc (draws : List ℚ)
    (hdraws : ∀ x ∈ draws, 0 ≤ x ∧ x ≤ 1)
    (y : ℚ) (hy : y ∈ sample_mixup_coefficients draws) :
    1/2 ≤ y ∧ y ≤ 1 := by
  simp only [sample_mixup_coefficients, List.mem_map] at hy
  obtain ⟨x, hx, rfl⟩ := hy
  obtain ⟨hx0, hx1⟩ := hdraws x hx
  constructor
  · rcases le_total x (1/2) with h | h
    · exact le_max_of_le_right (by linarith)
    · exact le_max_of_le_left h
  · exact max_le hx1 (by linarith)

/-- C3 witness: the draw `0` is reflected to `1 ∈ [1/2, 1]`. -/
theorem sample_mixup_coefficients_mem_Icc_witness :
    (∀ x ∈ [(0 : ℚ)], 0 ≤ x ∧ x ≤ 1) ∧
    ((1 : ℚ) ∈ Augmentations.sample_mixup_coefficients [(0 : ℚ)]) ∧
    (1/2 ≤ (1 : ℚ) ∧ (1 : ℚ) ≤ 1) := by
  have hmem : (1 : ℚ) ∈ Augmentations.sample_mixup_coefficients [(0 : ℚ)] := by
    simp [Augmentations.sample_mixup_coefficients]
  have hbounds : ∀ x ∈ [(0 : ℚ)], 0 ≤ x ∧ x ≤ 1 := by
    intro x hx
    simp only [List.mem_singleton] at hx
    subst hx
    norm_num
  exact ⟨hbounds, hmem,
    sample_mixup_coefficients_mem_Icc [(0 : ℚ)] hbounds (1 : ℚ) hmem⟩

open Augmentations in
/-- C4: the mixup output at batch position `i` equals
`c[i] * batch[i] + (1 - c[i]) * batch[(i-1) mod n]`, the second summand being
the batch cyclically rolled by one position, with `c[i]` broadcast over the
channel and spatial dimensions. -/
theorem mixup_rolls_by_one {n : ℕ} (hn : 0 < n) {K : Type*} [CommRing K] {C Y X : Type*}
    (batch : ZMod n → C → Y → X → K) (coeffs : ZMod n → K)
    (i : ZMod n) (c : C) (y : Y) (x : X) :
    mixup batch coeffs i c y x =
      coeffs i * batch i c y x +
        (1 - coeffs i) * batch ((((i.val + n - 1) % n : ℕ) : ZMod n)) c y x := by
  haveI : NeZero n := ⟨hn.ne'⟩
  have hidx : ((((i.val + n - 1) % n : ℕ)) : ZMod n) = i - 1 := by
    have h1 : ((((i.val + n - 1) % n : ℕ)) : ZMod n) = ((i.val + n - 1 : ℕ) : ZMod n) :=
      ZMod.natCast_mod _ n
    have h2 : i.val + n - 1 = i.val + (n - 1) := by omega
    rw [h1, h2, Nat.cast_add, Nat.cast_sub hn, Nat.cast_one, ZMod.natCast_self,
      ZMod.natCast_rightInverse i]
    ring
  rw [hidx]
  simp only [mixup, permute, Nat.cast_one]

/-- C4 witness: concrete evaluation at `n = 4`, `i = 0`: the rolled index is
`(0 + 4 - 1) % 4 = 3`. -/
theorem mixup_rolls_by_one_witness :
    (0 < 4) ∧
    (Augmentations.mixup (n := 4) (K := ℚ) (C := Unit) (Y := Unit) (X := Unit)
        (fun j _ _ _ => (j.val : ℚ)) (fun _ => 1/3) 0 () () () =
      (fun _ : ZMod 4 => (1/3 : ℚ)) 0 * (fun j : ZMod 4 => (j.val : ℚ)) 0 +
        (1 - (fun _ : ZMod 4 => (1/3 : ℚ)) 0) *
          (fun j : ZMod 4 => (j.val : ℚ)) ((((0 : ZMod 4).val + 4 - 1) % 4 : ℕ)) ) :=
  ⟨by decide, mixup_rolls_by_one (by decide) _ _ 0 () () ()⟩

open Augmentations in
/-- C5: when the disable draw falls below the disable probability,
`_sample_cutmix_coeff` returns exactly `1.0`; applying `_cutmix` with
coefficient `1.0` yields a zero cut box (`cut_x1 = cut_x2`, `cut_y1 = cut_y2`,
empty mask), returns the batch unmodified, and recomputes the effective
coefficient as exactly `1.0`. -/
theorem cutmix_disabled_is_noop {n : ℕ} {C : Type*}
    (lambda_low lambda_high uniform_draw disable_draw disable_prob : ℝ)
    (hdis : disable_draw < disable_prob)
    (height width : ℕ) (rx ry : ℝ)
    (batch : ZMod n → C → Fin height → Fin width → ℝ)
    (y : Fin height) (x : Fin width) :
    sample_cutmix_coeff lambda_low lambda_high uniform_draw disable_draw disable_prob = 1 ∧
    cut_x1 width 1 rx = cut_x2 width 1 rx ∧
    cut_y1 height 1 ry = cut_y2 height 1 ry ∧
    cutmix_mask height width 1 rx ry y x = false ∧
    cutmix_batch_out height width batch 1 rx ry = batch ∧
    cutmix_coeff_out height width 1 rx ry = 1 := by
  have hcw : cut_width width 1 = 0 := by
    simp [cut_width, Real.sqrt_zero]
  have hch : cut_height height 1 = 0 := by
    simp [cut_height, Real.sqrt_zero]
  have hx12 : cut_x1 width 1 rx = cut_x2 width 1 rx := by
    simp [cut_x1, cut_x2, hcw]
  have hy12 : cut_y1 height 1 ry = cut_y2 height 1 ry := by
    simp [cut_y1, cut_y2, hch]
  have hxs : ∀ x0 : Fin width, xs_mask width 1 rx x0 = false := by
    intro x0
    simp only [xs_mask, Bool.and_eq_false_iff, decide_eq_false_iff_not]
    rw [hx12]
    omega
  have hmask : ∀ (y0 : Fin height) (x0 : Fin width),
      cutmix_mask height width 1 rx ry y0 x0 = false := by
    intro y0 x0
    simp [cutmix_mask, hxs x0]
  refine ⟨?_, hx12, hy12, hmask y x, ?_, ?_⟩
  · simp [sample_cutmix_coeff, if_pos hdis]
  · funext i c y0 x0
    simp [cutmix_batch_out, hmask y0 x0]
  · simp [cutmix_coeff_out, mean_mask, hmask]

/-- C5 witness: concrete evaluation with disable draw `1/4` below disable
probability `1/2`, on a `2 × 2` image with batch size `1`. -/
theorem cutmix_disabled_is_noop_witness :
    ((1/4 : ℝ) < (1/2 : ℝ)) ∧
    (Augmentations.sample_cutmix_coeff (1/2) (3/4) (2/3) (1/4) (1/2) = 1 ∧
     Augmentations.cut_x1 2 1 (1/3) = Augmentations.cut_x2 2 1 (1/3) ∧
     Augmentations.cut_y1 2 1 (1/5) = Augmentations.cut_y2 2 1 (1/5) ∧
     Augmentations.cutmix_mask 2 2 1 (1/3) (1/5) 0 0 = false ∧
     Augmentations.cutmix_batch_out (n := 1) (C := Unit) 2 2
       (fun _ _ _ _ => (7 : ℝ)) 1 (1/3) (1/5) = (fun _ _ _ _ => (7 : ℝ)) ∧
     Augmentations.cutmix_coeff_out 2 2 1 (1/3) (1/5) = 1) :=
  ⟨by norm_num,
    cutmix_disabled_is_noop (1/2) (3/4) (2/3) (1/4) (1/2) (by norm_num)
      2 2 (1/3) (1/5) (fun _ _ _ _ => (7 : ℝ)) 0 0⟩

namespace Augmentations

/-- Counting lemma: the number of `x ∈ {0, …, w-1}` with `a ≤ x < b` is
`(b - a).toNat` whenever `0 ≤ a` and `b ≤ w`. -/
lemma card_filter_Fin (w : ℕ) (hw : 0 < w) (a b : ℤ) (ha : 0 ≤ a) (hb : b ≤ w) :
    ((Finset.univ : Finset (Fin w)).filter
      (fun x : Fin w => a ≤ (x : ℤ) ∧ (x : ℤ) < b)).card = (b - a).toNat := by
  rw [← Int.card_Ico]
  apply Finset.card_nbij' (fun x : Fin w => (x : ℤ))
      (fun z : ℤ => if h : z.toNat < w then (⟨z.toNat, h⟩ : Fin w) else ⟨0, hw⟩)
  · intro x hx
    simp only [Finset.mem_filter, Finset.mem_univ, true_and] at hx
    rw [Finset.mem_Ico]
    exact hx
  · intro z hz
    rw [Finset.mem_Ico] at hz
    have hz0 : 0 ≤ z := le_trans ha hz.1
    have hzw : z.toNat < w := by omega
    simp only [dif_pos hzw, Finset.mem_filter, Finset.mem_univ, true_and]
    constructor
    · show a ≤ ((z.toNat : ℕ) : ℤ)
      omega
    · show ((z.toNat : ℕ) : ℤ) < b
      omega
  · intro x hx
    have hlt : ((x : ℤ)).toNat < w := by
      rw [Int.toNat_natCast]
      exact x.isLt
    simp only [dif_pos hlt]
    apply Fin.ext
    show ((x : ℤ)).toNat = x.val
    rw [Int.toNat_natCast]
  · intro z hz
    rw [Finset.mem_Ico] at hz
    have hz0 : 0 ≤ z := le_trans ha hz.1
    have hzw : z.toNat < w := by omega
    simp only [dif_pos hzw]
    show ((z.toNat : ℕ) : ℤ) = z
    omega

/-- The set-pixel count of the cut-box mask is the area of the integer box,
whenever the box lies inside the image. -/
lemma maskCount_eq_box_area (height width : ℕ) (hh : 0 < height) (hw : 0 < width)
    (coeff rx ry : ℝ)
    (hx1 : 0 ≤ cut_x1 width coeff rx) (hx2 : cut_x2 width coeff rx ≤ width)
    (hy1 : 0 ≤ cut_y1 height coeff ry) (hy2 : cut_y2 height coeff ry ≤ height) :
    maskCount height width coeff rx ry =
      (cut_y2 height coeff ry - cut_y1 height coeff ry).toNat *
        (cut_x2 width coeff rx - cut_x1 width coeff rx).toNat := by
  unfold maskCount
  have hconv : ((Finset.univ : Finset (Fin height × Fin width)).filter
      (fun p => cutmix_mask height width coeff rx ry p.1 p.2 = true)) =
      ((Finset.univ : Finset (Fin height × Fin width)).filter
        (fun p => (cut_y1 height coeff ry ≤ (p.1 : ℤ) ∧ (p.1 : ℤ) < cut_y2 height coeff ry) ∧
          (cut_x1 width coeff rx ≤ (p.2 : ℤ) ∧ (p.2 : ℤ) < cut_x2 width coeff rx))) := by
    apply Finset.filter_congr
    intro p _
    simp only [cutmix_mask, xs_mask, ys_mask, Bool.and_eq_true, decide_eq_true_eq]
    tauto
  rw [hconv, ← Finset.univ_product_univ,
    Finset.filter_product
      (fun y : Fin height => cut_y1 height coeff ry ≤ (y : ℤ) ∧ (y : ℤ) < cut_y2 height coeff ry)
      (fun x : Fin width => cut_x1 width coeff rx ≤ (x : ℤ) ∧ (x : ℤ) < cut_x2 width coeff rx),
    Finset.card_product,
    card_filter_Fin height hh _ _ hy1 hy2, card_filter_Fin width hw _ _ hx1 hx2]

/-- `torch.mean(mask.to(torch.float32))` equals the number of set pixels
divided by the number of pixels. -/
lemma mean_mask_eq_maskCount (height width : ℕ) (coeff rx ry : ℝ) :
    mean_mask height width coeff rx ry =
      (maskCount height width coeff rx ry : ℝ) / (height * width) := by
  unfold mean_mask maskCount
  congr 1
  rw [← Fintype.sum_prod_type']
  exact Finset.sum_boole _ _

end Augmentations

namespace Augmentations

/-- One-dimensional bounds for the cut box: the rounded endpoints are
ordered, stay inside `[0, w]`, and their distance is within one pixel of
`cut_width`. -/
lemma cut_x_bounds (w : ℕ) (coeff r : ℝ) (hc0 : 0 ≤ coeff) (hc1 : coeff ≤ 1)
    (hr0 : 0 ≤ r) (hr1 : r < 1) :
    0 ≤ cut_x1 w coeff r ∧ cut_x1 w coeff r ≤ cut_x2 w coeff r ∧
    cut_x2 w coeff r ≤ (w : ℤ) ∧
    cut_width w coeff - 1 ≤ (cut_x2 w coeff r : ℝ) - (cut_x1 w coeff r : ℝ) ∧
    (cut_x2 w coeff r : ℝ) - (cut_x1 w coeff r : ℝ) ≤ cut_width w coeff + 1 := by
  have hcw0 : 0 ≤ cut_width w coeff :=
    mul_nonneg (Nat.cast_nonneg w) (Real.sqrt_nonneg _)
  have hcww : cut_width w coeff ≤ w := by
    have h := mul_le_mul_of_nonneg_left (Real.sqrt_le_one.mpr (by linarith : 1 - coeff ≤ 1))
      (Nat.cast_nonneg w)
    simpa [cut_width] using h
  have hu : cut_center_x w coeff r - cut_width w coeff / 2 = (w - cut_width w coeff) * r := by
    unfold cut_center_x
    ring
  have hv : cut_center_x w coeff r + cut_width w coeff / 2 =
      (w - cut_width w coeff) * r + cut_width w coeff := by
    unfold cut_center_x
    ring
  have hu0 : 0 ≤ (w - cut_width w coeff) * r := mul_nonneg (by linarith) hr0
  have huv : (w - cut_width w coeff) * r + cut_width w coeff ≤ w := by
    have h := mul_le_of_le_one_right (show (0:ℝ) ≤ w - cut_width w coeff by linarith) hr1.le
    linarith
  have h1 : 0 ≤ cut_x1 w coeff r := by
    unfold cut_x1
    rw [round_eq]
    apply Int.le_floor.mpr
    push_cast
    rw [hu]
    linarith
  have h2 : cut_x1 w coeff r ≤ cut_x2 w coeff r := by
    unfold cut_x1 cut_x2
    rw [round_eq, round_eq]
    exact Int.floor_le_floor (by linarith)
  have h3 : cut_x2 w coeff r ≤ (w : ℤ) := by
    have hle : round (cut_center_x w coeff r + cut_width w coeff / 2) ≤ round ((w : ℕ) : ℝ) := by
      rw [round_eq, round_eq]
      exact Int.floor_le_floor (by linarith)
    rw [round_natCast] at hle
    exact hle
  have hau := abs_sub_round (cut_center_x w coeff r - cut_width w coeff / 2)
  have hav := abs_sub_round (cut_center_x w coeff r + cut_width w coeff / 2)
  rw [abs_le] at hau hav
  refine ⟨h1, h2, h3, ?_, ?_⟩
  · show cut_width w coeff - 1 ≤
      ((round (cut_center_x w coeff r + cut_width w coeff / 2) : ℤ) : ℝ) -
      ((round (cut_center_x w coeff r - cut_width w coeff / 2) : ℤ) : ℝ)
    obtain ⟨hav1, hav2⟩ := hav
    obtain ⟨hau1, hau2⟩ := hau
    linarith
  · show ((round (cut_center_x w coeff r + cut_width w coeff / 2) : ℤ) : ℝ) -
      ((round (cut_center_x w coeff r - cut_width w coeff / 2) : ℤ) : ℝ) ≤
      cut_width w coeff + 1
    obtain ⟨hav1, hav2⟩ := hav
    obtain ⟨hau1, hau2⟩ := hau
    linarith

end Augmentations

open Augmentations in
/-- C6: for every retain fraction in `[0, 1]` and image size, the cut box
computed by `_cutmix` lies entirely inside the image
(`0 ≤ cut_x1 ≤ cut_x2 ≤ width`, `0 ≤ cut_y1 ≤ cut_y2 ≤ height`), the fraction
of set mask pixels is within one pixel-row/column rounding of
`1 - retain_fraction`, and the effective coefficient returned equals
`1 - mean(mask)`. -/
theorem cutmix_box_inside_and_mask_fraction (height width : ℕ) (hh : 0 < height)
    (hw : 0 < width) (coeff rx ry : ℝ) (hc0 : 0 ≤ coeff) (hc1 : coeff ≤ 1)
    (hrx0 : 0 ≤ rx) (hrx1 : rx < 1) (hry0 : 0 ≤ ry) (hry1 : ry < 1) :
    (0 ≤ cut_x1 width coeff rx ∧ cut_x1 width coeff rx ≤ cut_x2 width coeff rx ∧
      cut_x2 width coeff rx ≤ (width : ℤ)) ∧
    (0 ≤ cut_y1 height coeff ry ∧ cut_y1 height coeff ry ≤ cut_y2 height coeff ry ∧
      cut_y2 height coeff ry ≤ (height : ℤ)) ∧
    |(maskCount height width coeff rx ry : ℝ) / ((height : ℝ) * width) - (1 - coeff)| ≤
      (cut_width width coeff + cut_height height coeff + 1) / ((height : ℝ) * width) ∧
    cutmix_coeff_out height width coeff rx ry =
      1 - (maskCount height width coeff rx ry : ℝ) / ((height : ℝ) * width) := by
  obtain ⟨hx10, hx12, hx2w, hdxl, hdxu⟩ := cut_x_bounds width coeff rx hc0 hc1 hrx0 hrx1
  obtain ⟨hy10, hy12, hy2w, hdyl, hdyu⟩ := cut_x_bounds height coeff ry hc0 hc1 hry0 hry1
  have ey1 : cut_y1 height coeff ry = cut_x1 height coeff ry := rfl
  have ey2 : cut_y2 height coeff ry = cut_x2 height coeff ry := rfl
  have ech : cut_height height coeff = cut_width height coeff := rfl
  have hcount := maskCount_eq_box_area height width hh hw coeff rx ry hx10 hx2w
    (by rw [ey1]; exact hy10) (by rw [ey2]; exact hy2w)
  have hxnn : 0 ≤ cut_x2 width coeff rx - cut_x1 width coeff rx := sub_nonneg.mpr hx12
  have hynn : 0 ≤ cut_y2 height coeff ry - cut_y1 height coeff ry := by
    rw [ey1, ey2]
    exact sub_nonneg.mpr hy12
  have hZ : (maskCount height width coeff rx ry : ℤ) =
      (cut_y2 height coeff ry - cut_y1 height coeff ry) *
        (cut_x2 width coeff rx - cut_x1 width coeff rx) := by
    rw [hcount]
    push_cast [Int.toNat_of_nonneg hynn, Int.toNat_of_nonneg hxnn]
    ring
  have hcountR : (maskCount height width coeff rx ry : ℝ) =
      ((cut_y2 height coeff ry : ℝ) - (cut_y1 height coeff ry : ℝ)) *
        ((cut_x2 width coeff rx : ℝ) - (cut_x1 width coeff rx : ℝ)) := by
    exact_mod_cast hZ
  have hcw0 : 0 ≤ cut_width width coeff :=
    mul_nonneg (Nat.cast_nonneg width) (Real.sqrt_nonneg _)
  have hch0 : 0 ≤ cut_height height coeff := by
    rw [ech]
    exact mul_nonneg (Nat.cast_nonneg height) (Real.sqrt_nonneg _)
  have hdx0 : (0 : ℝ) ≤ (cut_x2 width coeff rx : ℝ) - (cut_x1 width coeff rx : ℝ) := by
    rw [sub_nonneg]
    exact_mod_cast hx12
  have hdy0 : (0 : ℝ) ≤ (cut_y2 height coeff ry : ℝ) - (cut_y1 height coeff ry : ℝ) := by
    rw [sub_nonneg, ey1, ey2]
    exact_mod_cast hy12
  have hdyl2 : cut_height height coeff - 1 ≤
      (cut_y2 height coeff ry : ℝ) - (cut_y1 height coeff ry : ℝ) := by
    rw [ech, ey1, ey2]
    exact hdyl
  have hdyu2 : (cut_y2 height coeff ry : ℝ) - (cut_y1 height coeff ry : ℝ) ≤
      cut_height height coeff + 1 := by
    rw [ech, ey1, ey2]
    exact hdyu
  have habs : |(maskCount height width coeff rx ry : ℝ) -
      cut_width width coeff * cut_height height coeff| ≤
      cut_width width coeff + cut_height height coeff + 1 := by
    rw [hcountR, abs_le]
    constructor
    · nlinarith [mul_le_mul_of_nonneg_left
        (show cut_height height coeff -
          ((cut_y2 height coeff ry : ℝ) - (cut_y1 height coeff ry : ℝ)) ≤ 1 by linarith) hcw0,
        mul_le_mul_of_nonneg_left
        (show cut_width width coeff -
          ((cut_x2 width coeff rx : ℝ) - (cut_x1 width coeff rx : ℝ)) ≤ 1 by linarith) hdy0]
    · nlinarith [mul_le_mul hdyu2 hdxu hdx0 (by linarith : (0:ℝ) ≤ cut_height height coeff + 1)]
  have hss : Real.sqrt (1 - coeff) * Real.sqrt (1 - coeff) = 1 - coeff :=
    Real.mul_self_sqrt (by linarith)
  have hprod : cut_width width coeff * cut_height height coeff =
      (height : ℝ) * width * (1 - coeff) := by
    unfold cut_width cut_height
    linear_combination ((width : ℝ) * height) * hss
  have hD : (0 : ℝ) < (height : ℝ) * width := by
    have h1 : (0 : ℝ) < (height : ℝ) := Nat.cast_pos.mpr hh
    have h2 : (0 : ℝ) < (width : ℝ) := Nat.cast_pos.mpr hw
    exact mul_pos h1 h2
  refine ⟨⟨hx10, hx12, hx2w⟩, ⟨hy10, hy12, hy2w⟩, ?_, ?_⟩
  · have h1c : (1 : ℝ) - coeff =
        cut_width width coeff * cut_height height coeff / ((height : ℝ) * width) := by
      rw [hprod]
      field_simp
    rw [h1c, div_sub_div_same, abs_div, abs_of_pos hD]
    gcongr
  · unfold cutmix_coeff_out
    rw [mean_mask_eq_maskCount]

/-- C6 witness: concrete evaluation with a `3 × 2` image, retain fraction
`3/4` and centre draws `rx = 1/2`, `ry = 1/4`. -/
theorem cutmix_box_inside_and_mask_fraction_witness :
    ((0 < 3) ∧ (0 < 2) ∧ (0 ≤ (3/4 : ℝ)) ∧ ((3/4 : ℝ) ≤ 1) ∧
      (0 ≤ (1/2 : ℝ)) ∧ ((1/2 : ℝ) < 1) ∧ (0 ≤ (1/4 : ℝ)) ∧ ((1/4 : ℝ) < 1)) ∧
    ((0 ≤ Augmentations.cut_x1 2 (3/4) (1/2) ∧
       Augmentations.cut_x1 2 (3/4) (1/2) ≤ Augmentations.cut_x2 2 (3/4) (1/2) ∧
       Augmentations.cut_x2 2 (3/4) (1/2) ≤ (2 : ℤ)) ∧
     (0 ≤ Augmentations.cut_y1 3 (3/4) (1/4) ∧
       Augmentations.cut_y1 3 (3/4) (1/4) ≤ Augmentations.cut_y2 3 (3/4) (1/4) ∧
       Augmentations.cut_y2 3 (3/4) (1/4) ≤ (3 : ℤ)) ∧
     |(Augmentations.maskCount 3 2 (3/4) (1/2) (1/4) : ℝ) / ((3 : ℝ) * 2) - (1 - 3/4)| ≤
       (Augmentations.cut_width 2 (3/4) + Augmentations.cut_height 3 (3/4) + 1) / ((3 : ℝ) * 2) ∧
     Augmentations.cutmix_coeff_out 3 2 (3/4) (1/2) (1/4) =
       1 - (Augmentations.maskCount 3 2 (3/4) (1/2) (1/4) : ℝ) / ((3 : ℝ) * 2)) :=
  ⟨⟨by norm_num, by norm_num, by norm_num, by norm_num, by norm_num, by norm_num,
     by norm_num, by norm_num⟩,
   cutmix_box_inside_and_mask_fraction 3 2 (by norm_num) (by norm_num) (3/4) (1/2) (1/4)
     (by norm_num) (by norm_num) (by norm_num) (by norm_num) (by norm_num) (by norm_num)⟩

namespace Augmentations

/-- Summing a function that is constant on the mask and constant off the mask
counts the mask pixels. -/
lemma sum_ite_mask (height width : ℕ) (coeff rx ry : ℝ) (A B : ℝ) :
    (∑ y : Fin height, ∑ x : Fin width,
      if cutmix_mask height width coeff rx ry y x then A else B) =
    (maskCount height width coeff rx ry : ℝ) * A +
      (((height * width : ℕ) : ℝ) - (maskCount height width coeff rx ry : ℝ)) * B := by
  have hfilter : ((Finset.univ : Finset (Fin height × Fin width)).filter
      (fun p => cutmix_mask height width coeff rx ry p.1 p.2 = true)).card =
      maskCount height width coeff rx ry := rfl
  rw [← Fintype.sum_prod_type']
  rw [Finset.sum_ite, Finset.sum_const, Finset.sum_const, nsmul_eq_mul, nsmul_eq_mul]
  have hcard := Finset.filter_card_add_filter_neg_card_eq_card
    (s := (Finset.univ : Finset (Fin height × Fin width)))
    (p := fun p => cutmix_mask height width coeff rx ry p.1 p.2 = true)
  rw [Finset.card_univ, Fintype.card_prod, Fintype.card_fin, Fintype.card_fin,
    hfilter] at hcard
  have hneg : (((Finset.univ : Finset (Fin height × Fin width)).filter
      (fun a => ¬ cutmix_mask height width coeff rx ry a.1 a.2 = true)).card : ℝ) =
      ((height * width : ℕ) : ℝ) - (maskCount height width coeff rx ry : ℝ) := by
    have h1 : ((Finset.univ : Finset (Fin height × Fin width)).filter
        (fun a => ¬ cutmix_mask height width coeff rx ry a.1 a.2 = true)).card =
        height * width - maskCount height width coeff rx ry := by omega
    have h2 : maskCount height width coeff rx ry ≤ height * width := by omega
    rw [h1]
    exact Nat.cast_sub h2
  rw [hfilter, hneg]

end Augmentations

open Augmentations in
/-- C2: when both mixup and cutmix are enabled, `mix_labels` returns exactly
four label branches, the label batch cyclically shifted by 0, 1, 2 and 3
positions, with weights `m*c`, `(1-m)*c`, `roll2(m)*(1-c)`,
`(1-roll2(m))*(1-c)`; and these weights equal the per-source contribution of
`forward` (mixup by shift 1 first, then cutmix by shift 2 on the mixed
batch): for a batch that is constant per sample, the pixel-mean of the
composed output equals the weighted sum of the shifted label values, with
`c` the effective cutmix coefficient. -/
theorem mix_labels_matches_forward_both {n : ℕ} (height width : ℕ)
    (hh : 0 < height) (hw : 0 < width)
    (v m : ZMod n → ℝ) (coeff rx ry : ℝ) (i : ZMod n) :
    mix_labels true true v m (cutmix_coeff_out height width coeff rx ry) =
      some ([v, permute v 1, permute v 2, permute v 3],
        [fun j => m j * cutmix_coeff_out height width coeff rx ry,
         fun j => (1 - m j) * cutmix_coeff_out height width coeff rx ry,
         fun j => permute m 2 j * (1 - cutmix_coeff_out height width coeff rx ry),
         fun j => (1 - permute m 2 j) * (1 - cutmix_coeff_out height width coeff rx ry)]) ∧
    (∑ y : Fin height, ∑ x : Fin width,
        forward_both height width (fun j _ _ _ => v j) m coeff rx ry i () y x) /
        ((height : ℝ) * width) =
      (m i * cutmix_coeff_out height width coeff rx ry) * v i +
      ((1 - m i) * cutmix_coeff_out height width coeff rx ry) * permute v 1 i +
      (permute m 2 i * (1 - cutmix_coeff_out height width coeff rx ry)) * permute v 2 i +
      ((1 - permute m 2 i) * (1 - cutmix_coeff_out height width coeff rx ry)) *
        permute v 3 i := by
  constructor
  · rfl
  · have hA3 : i - (2 : ZMod n) - (1 : ZMod n) = i - 3 := by ring
    have hpoint : ∀ (y : Fin height) (x : Fin width),
        forward_both height width (fun j _ _ _ => v j) m coeff rx ry i () y x =
        if cutmix_mask height width coeff rx ry y x then
          m (i - 2) * v (i - 2) + (1 - m (i - 2)) * v (i - 3)
        else m i * v i + (1 - m i) * v (i - 1) := by
      intro y x
      by_cases hm : cutmix_mask height width coeff rx ry y x
      · simp only [forward_both, cutmix_batch_out, mixup, permute, if_pos hm,
          Nat.cast_ofNat, Nat.cast_one, hA3]
      · simp only [forward_both, cutmix_batch_out, mixup, permute, if_neg hm,
          Nat.cast_one]
    simp only [hpoint]
    rw [sum_ite_mask]
    have hc : cutmix_coeff_out height width coeff rx ry =
        1 - (maskCount height width coeff rx ry : ℝ) / ((height : ℝ) * width) := by
      unfold cutmix_coeff_out
      rw [mean_mask_eq_maskCount]
    rw [hc]
    have hD : ((height : ℝ) * width) ≠ 0 := by
      have h1 : (0 : ℝ) < (height : ℝ) := Nat.cast_pos.mpr hh
      have h2 : (0 : ℝ) < (width : ℝ) := Nat.cast_pos.mpr hw
      exact (mul_pos h1 h2).ne'
    simp only [permute, Nat.cast_ofNat, Nat.cast_one]
    push_cast
    field_simp
    ring

/-- C2 witness: concrete evaluation with `n = 4`, a `2 × 2` image and sample
index `0`. -/
theorem mix_labels_matches_forward_both_witness :
    ((0 < 2) ∧ (0 < 2)) ∧
    (Augmentations.mix_labels (n := 4) true true (fun j => (j.val : ℝ))
        (fun _ => 2/3) (Augmentations.cutmix_coeff_out 2 2 (1/2) 0 0) =
      some ([fun j => (j.val : ℝ), Augmentations.permute (fun j : ZMod 4 => (j.val : ℝ)) 1,
             Augmentations.permute (fun j : ZMod 4 => (j.val : ℝ)) 2,
             Augmentations.permute (fun j : ZMod 4 => (j.val : ℝ)) 3],
            [fun j => (fun _ : ZMod 4 => (2/3 : ℝ)) j * Augmentations.cutmix_coeff_out 2 2 (1/2) 0 0,
             fun j => (1 - (fun _ : ZMod 4 => (2/3 : ℝ)) j) * Augmentations.cutmix_coeff_out 2 2 (1/2) 0 0,
             fun j => Augmentations.permute (fun _ : ZMod 4 => (2/3 : ℝ)) 2 j *
               (1 - Augmentations.cutmix_coeff_out 2 2 (1/2) 0 0),
             fun j => (1 - Augmentations.permute (fun _ : ZMod 4 => (2/3 : ℝ)) 2 j) *
               (1 - Augmentations.cutmix_coeff_out 2 2 (1/2) 0 0)]) ∧
     (∑ y : Fin 2, ∑ x : Fin 2,
         Augmentations.forward_both 2 2 (fun (j : ZMod 4) (_ : Unit) _ _ => (j.val : ℝ))
           (fun _ => 2/3) (1/2) 0 0 0 () y x) / ((2 : ℝ) * 2) =
       ((fun _ : ZMod 4 => (2/3 : ℝ)) 0 * Augmentations.cutmix_coeff_out 2 2 (1/2) 0 0) *
         (fun j : ZMod 4 => (j.val : ℝ)) 0 +
       ((1 - (fun _ : ZMod 4 => (2/3 : ℝ)) 0) * Augmentations.cutmix_coeff_out 2 2 (1/2) 0 0) *
         Augmentations.permute (fun j : ZMod 4 => (j.val : ℝ)) 1 0 +
       (Augmentations.permute (fun _ : ZMod 4 => (2/3 : ℝ)) 2 0 *
         (1 - Augmentations.cutmix_coeff_out 2 2 (1/2) 0 0)) *
         Augmentations.permute (fun j : ZMod 4 => (j.val : ℝ)) 2 0 +
       ((1 - Augmentations.permute (fun _ : ZMod 4 => (2/3 : ℝ)) 2 0) *
         (1 - Augmentations.cutmix_coeff_out 2 2 (1/2) 0 0)) *
         Augmentations.permute (fun j : ZMod 4 => (j.val : ℝ)) 3 0) :=
  ⟨⟨by norm_num, by norm_num⟩,
    mix_labels_matches_forward_both (n := 4) 2 2 (by norm_num) (by norm_num)
      (fun j => (j.val : ℝ)) (fun _ => 2/3) (1/2) 0 0 0⟩

namespace Train

/-! Embedding of the training loop of `train.py`.  Epoch counters, loss
scalings and learning rates are exact values (`ℕ`, `ℚ`); randomness and
device state do not enter the embedded fragments. -/

/-- `num_loss_scaling_steps = int(math.log2(opts.loss_scaling // opts.initial_loss_scaling)) + 1`. -/
def num_loss_scaling_steps (loss_scaling initial_loss_scaling : ℕ) : ℕ :=
  Nat.log 2 (loss_scaling / initial_loss_scaling) + 1

/-- The dict comprehension
`{i * (opts.epoch // num_loss_scaling_steps) + 1: opts.initial_loss_scaling * (2 ** i) for i in range(num_loss_scaling_steps)}`
as the association list of its (key, value) pairs in insertion order. -/
def loss_scaling_steps (epoch loss_scaling initial_loss_scaling : ℕ) : List (ℕ × ℕ) :=
  (List.range (num_loss_scaling_steps loss_scaling initial_loss_scaling)).map
    (fun i => (i * (epoch / num_loss_scaling_steps loss_scaling initial_loss_scaling) + 1,
      initial_loss_scaling * 2 ^ i))

/-- Python dict lookup on an association list built by a comprehension:
a later binding of the same key overwrites an earlier one. -/
def dictLookup (ps : List (ℕ × ℕ)) (k : ℕ) : Option ℕ :=
  ((ps.filter (fun p => p.1 = k)).getLast?).map Prod.snd

/-- Filtering the schedule list for the key `i*q + 1` keeps exactly the
`i`-th entry when the spacing `q` is positive. -/
lemma filter_key_map_range (N q : ℕ) (hq : 0 < q) (v : ℕ → ℕ) (i : ℕ) (hi : i < N) :
    ((List.range N).map (fun j => (j * q + 1, v j))).filter
      (fun p => p.1 = i * q + 1) = [(i * q + 1, v i)] := by
  induction N with
  | zero => omega
  | succ N ih =>
    rw [List.range_succ, List.map_append, List.filter_append]
    by_cases hiN : i < N
    · rw [ih hiN]
      have hne : ¬ (N * q + 1 = i * q + 1) := by
        intro hcon
        have := Nat.eq_of_mul_eq_mul_right hq (Nat.add_right_cancel hcon)
        omega
      simp [hne]
    · have hieq : i = N := by omega
      subst hieq
      have hempty : ((List.range i).map (fun j => (j * q + 1, v j))).filter
          (fun p => decide (p.1 = i * q + 1)) = [] := by
        apply List.filter_eq_nil_iff.mpr
        intro a ha
        simp only [List.mem_map, List.mem_range] at ha
        obtain ⟨j, hj, rfl⟩ := ha
        simp only [decide_eq_true_eq]
        intro hcon
        have := Nat.eq_of_mul_eq_mul_right hq (Nat.add_right_cancel hcon)
        omega
      rw [hempty]
      simp

/-- With at least one epoch per step, each schedule key `i*q + 1` is bound to
`initial_loss_scaling * 2^i`. -/
lemma dictLookup_loss_scaling_steps (epoch ls ils : ℕ)
    (hq : 0 < epoch / num_loss_scaling_steps ls ils)
    (i : ℕ) (hi : i < num_loss_scaling_steps ls ils) :
    dictLookup (loss_scaling_steps epoch ls ils)
      (i * (epoch / num_loss_scaling_steps ls ils) + 1) = some (ils * 2 ^ i) := by
  unfold dictLookup loss_scaling_steps
  rw [filter_key_map_range _ _ hq _ _ hi]
  rfl

end Train

/-- C7 counterexample: with `total_epochs = 1`, `loss_scaling = 4`,
`initial_loss_scaling = 1` we get `num_steps = 3` and spacing
`1 // 3 = 0`, so all three dict keys collapse onto epoch `1` and the last
binding wins: the schedule maps epoch `1` (which is `0 * (1//3) + 1`) to `4`,
not to `initial_loss_scaling * 2^0 = 1` as the claim asserts. -/
theorem loss_scaling_schedule_counterexample :
    Train.dictLookup (Train.loss_scaling_steps 1 4 1)
      (0 * (1 / Train.num_loss_scaling_steps 4 1) + 1) = some 4 ∧
    ¬ (Train.dictLookup (Train.loss_scaling_steps 1 4 1)
      (0 * (1 / Train.num_loss_scaling_steps 4 1) + 1) = some (1 * 2 ^ 0)) := by
  have hlog : Nat.log 2 4 = 2 :=
    Nat.log_eq_of_pow_le_of_lt_pow (by norm_num) (by norm_num)
  have hN : Train.num_loss_scaling_steps 4 1 = 3 := by
    unfold Train.num_loss_scaling_steps
    norm_num [hlog]
  have hsteps : Train.loss_scaling_steps 1 4 1 = [(1, 1), (1, 2), (1, 4)] := by
    unfold Train.loss_scaling_steps
    rw [hN]
    rfl
  rw [hsteps, hN]
  constructor
  · rfl
  · decide

open Train in
/-- C7 (amended): provided `initial_loss_scaling` is positive and at most
`loss_scaling`, and the number of loss-scaling steps does not exceed the
total number of epochs, the precomputed schedule assigns
`initial_loss_scaling * 2^i` at epoch `i * (total_epochs // num_steps) + 1`
for each `i < num_steps`; at epoch 1 the scaling equals
`initial_loss_scaling`, and no scheduled value exceeds the configured
maximum `loss_scaling`. -/
theorem loss_scaling_schedule_spec (epoch ls ils : ℕ) (hils : 0 < ils)
    (hle : ils ≤ ls) (hsteps : num_loss_scaling_steps ls ils ≤ epoch)
    (i : ℕ) (hi : i < num_loss_scaling_steps ls ils) :
    dictLookup (loss_scaling_steps epoch ls ils)
      (i * (epoch / num_loss_scaling_steps ls ils) + 1) = some (ils * 2 ^ i) ∧
    dictLookup (loss_scaling_steps epoch ls ils) 1 = some ils ∧
    ils * 2 ^ i ≤ ls := by
  have hN0 : 0 < num_loss_scaling_steps ls ils := Nat.succ_pos _
  have hq : 0 < epoch / num_loss_scaling_steps ls ils :=
    (Nat.one_le_div_iff hN0).mpr hsteps
  refine ⟨dictLookup_loss_scaling_steps epoch ls ils hq i hi, ?_, ?_⟩
  · have h0 := dictLookup_loss_scaling_steps epoch ls ils hq 0 hN0
    simpa using h0
  · have hi' : i ≤ Nat.log 2 (ls / ils) := by
      unfold num_loss_scaling_steps at hi
      omega
    have hdiv1 : 1 ≤ ls / ils := (Nat.one_le_div_iff hils).mpr hle
    calc ils * 2 ^ i ≤ ils * 2 ^ Nat.log 2 (ls / ils) :=
          Nat.mul_le_mul_left ils (Nat.pow_le_pow_right (by norm_num) hi')
      _ ≤ ils * (ls / ils) :=
          Nat.mul_le_mul_left ils (Nat.pow_log_le_self 2 (by omega))
      _ = (ls / ils) * ils := Nat.mul_comm _ _
      _ ≤ ls := Nat.div_mul_le_self ls ils

/-- C7 witness: `total_epochs = 8`, `loss_scaling = 8`,
`initial_loss_scaling = 1`: `num_steps = 4`, spacing `2`, boundary `i = 2`
at epoch `5` with value `4`. -/
theorem loss_scaling_schedule_spec_witness :
    ((0 < 1) ∧ (1 ≤ 8) ∧ (Train.num_loss_scaling_steps 8 1 ≤ 8) ∧
      (2 < Train.num_loss_scaling_steps 8 1)) ∧
    (Train.dictLookup (Train.loss_scaling_steps 8 8 1)
        (2 * (8 / Train.num_loss_scaling_steps 8 1) + 1) = some (1 * 2 ^ 2) ∧
      Train.dictLookup (Train.loss_scaling_steps 8 8 1) 1 = some 1 ∧
      1 * 2 ^ 2 ≤ 8) := by
  have hlog : Nat.log 2 8 = 3 :=
    Nat.log_eq_of_pow_le_of_lt_pow (by norm_num) (by norm_num)
  have hN : Train.num_loss_scaling_steps 8 1 = 4 := by
    unfold Train.num_loss_scaling_steps
    norm_num [hlog]
  refine ⟨⟨by norm_num, by norm_num, by rw [hN]; norm_num, by rw [hN]; norm_num⟩, ?_⟩
  exact loss_scaling_schedule_spec 8 8 1 (by norm_num) (by norm_num)
    (by rw [hN]; norm_num) 2 (by rw [hN]; norm_num)

namespace Train

/-- The mutable optimizer fields touched by the loss-scaling push:
`optimizer.loss_scaling` and, for `sgd_combined`, the `velocity_scaling`
field of the two parameter groups. -/
structure Optimizer where
  loss_scaling : ℚ
  velocity_scaling0 : ℚ
  velocity_scaling1 : ℚ
deriving DecidableEq

/-- Result of one pass over lines 170-182 of `train.py`. -/
structure LrStepResult where
  optimizer : Optimizer
  old_lr : ℚ
  old_loss_scaling : ℚ
  set_optimizer_called : Bool
deriving DecidableEq

/-- One batch iteration of the learning-rate / loss-scaling push:
```
new_lr = lr_scheduler.get_last_lr()[0]
if new_lr != old_lr or new_loss_scaling != old_loss_scaling:
    if new_loss_scaling != old_loss_scaling:
        optimizer.loss_scaling = new_loss_scaling
        if opts.optimizer == 'sgd_combined':
            optimizer.param_groups[0]["velocity_scaling"] = new_loss_scaling / ratio
            optimizer.param_groups[1]["velocity_scaling"] = new_loss_scaling / ratio
    training_model.setOptimizer(optimizer)
    old_lr = new_lr
    old_loss_scaling = new_loss_scaling
```
`set_optimizer_called` records whether `setOptimizer` ran. -/
def lr_loss_scaling_step (is_sgd_combined : Bool) (ratio : ℚ)
    (new_lr new_loss_scaling : ℚ) (optimizer : Optimizer)
    (old_lr old_loss_scaling : ℚ) : LrStepResult :=
  if new_lr ≠ old_lr ∨ new_loss_scaling ≠ old_loss_scaling then
    let optimizer1 :=
      if new_loss_scaling ≠ old_loss_scaling then
        let optimizer2 := { optimizer with loss_scaling := new_loss_scaling }
        if is_sgd_combined then
          { optimizer2 with
            velocity_scaling0 := new_loss_scaling / ratio,
            velocity_scaling1 := new_loss_scaling / ratio }
        else optimizer2
      else optimizer
    ⟨optimizer1, new_lr, new_loss_scaling, true⟩
  else ⟨optimizer, old_lr, old_loss_scaling, false⟩

end Train

open Train in
/-- C8: in a batch iteration, `training_model.setOptimizer(optimizer)` is
invoked if and only if the scheduler learning rate differs from the
previously applied one or the scheduled loss scaling differs from the
previously applied one; when neither changes, the optimizer and the
tracked state are left untouched. -/
theorem set_optimizer_called_iff_changed (is_sgd_combined : Bool) (ratio : ℚ)
    (new_lr new_loss_scaling : ℚ) (optimizer : Optimizer)
    (old_lr old_loss_scaling : ℚ) :
    ((lr_loss_scaling_step is_sgd_combined ratio new_lr new_loss_scaling optimizer
        old_lr old_loss_scaling).set_optimizer_called = true ↔
      (new_lr ≠ old_lr ∨ new_loss_scaling ≠ old_loss_scaling)) ∧
    (new_lr = old_lr → new_loss_scaling = old_loss_scaling →
      lr_loss_scaling_step is_sgd_combined ratio new_lr new_loss_scaling optimizer
        old_lr old_loss_scaling = ⟨optimizer, old_lr, old_loss_scaling, false⟩) := by
  constructor
  · by_cases h : new_lr ≠ old_lr ∨ new_loss_scaling ≠ old_loss_scaling
    · simp [lr_loss_scaling_step, if_pos h, h]
    · simp [lr_loss_scaling_step, if_neg h, h]
  · intro h1 h2
    have h : ¬ (new_lr ≠ old_lr ∨ new_loss_scaling ≠ old_loss_scaling) := by
      push_neg
      exact ⟨h1, h2⟩
    simp [lr_loss_scaling_step, if_neg h]

/-- C8 witness: with unchanged learning rate `1/10` and loss scaling `16`
the push is skipped and the state is untouched. -/
theorem set_optimizer_called_iff_changed_witness :
    ((Train.lr_loss_scaling_step true 2 (1/10) 16 ⟨16, 8, 8⟩ (1/10) 16).set_optimizer_called
        = true ↔ ((1/10 : ℚ) ≠ (1/10 : ℚ) ∨ (16 : ℚ) ≠ (16 : ℚ))) ∧
    ((1/10 : ℚ) = (1/10 : ℚ) → (16 : ℚ) = (16 : ℚ) →
      Train.lr_loss_scaling_step true 2 (1/10) 16 ⟨16, 8, 8⟩ (1/10) 16 =
        ⟨⟨16, 8, 8⟩, 1/10, 16, false⟩) :=
  set_optimizer_called_iff_changed true 2 (1/10) 16 ⟨16, 8, 8⟩ (1/10) 16

namespace Train

/-- The record serialized by `torch.save` at the end of an epoch: exactly the
epoch index, the model state mapping, the optimizer state mapping, the last
running loss, the last running accuracy and the full configuration object. -/
structure CheckpointRecord (MS OS Opts : Type*) where
  epoch : ℕ
  model_state_dict : MS
  optimizer_state_dict : OS
  loss : ℚ
  train_accuracy : ℚ
  opts : Opts

/-- `filename = f"{opts.model}_{opts.data}_{epoch}.pt"`. -/
def checkpoint_filename (model data : String) (epoch : ℕ) : String :=
  model ++ "_" ++ data ++ "_" ++ toString epoch ++ ".pt"

/-- The values of the local variables `aggregated_loss` / `aggregated_acc`
after the batch loop: each batch binds them to the current running means
(passed in per batch as `batch_metrics`) only under
`if not opts.disable_metrics:`; `none` models an unbound Python local. -/
def aggregated_after_epoch (disable_metrics : Bool)
    (batch_metrics : List (ℚ × ℚ)) : Option (ℚ × ℚ) :=
  batch_metrics.foldl (fun acc lm => if disable_metrics then acc else some lm) none

/-- Lines 196-208 of `train.py`:
```
if not opts.checkpoint_path == "" and (not opts.use_popdist or opts.popdist_local_rank == 0):
    filename = f"{opts.model}_{opts.data}_{epoch}.pt"
    save_path = os.path.join(opts.checkpoint_path, filename)
    torch.save({'epoch': epoch, 'model_state_dict': ..., 'optimizer_state_dict': ...,
                'loss': aggregated_loss, 'train_accuracy': aggregated_acc, 'opts': opts}, save_path)
```
Reading the locals `aggregated_loss` / `aggregated_acc` while unbound raises
a `NameError` (modelled as `Except.error`); otherwise the function returns
the written path and record, or `none` when the guard skips the save. -/
def save_checkpoint {MS OS Opts : Type*} (checkpoint_path model data : String)
    (use_popdist : Bool) (popdist_local_rank : ℕ) (epoch : ℕ)
    (model_state : MS) (optimizer_state : OS)
    (aggregated : Option (ℚ × ℚ)) (opts : Opts) :
    Except String (Option (String × CheckpointRecord MS OS Opts)) :=
  if ¬ (checkpoint_path = "") ∧ (¬ use_popdist = true ∨ popdist_local_rank = 0) then
    match aggregated with
    | none => .error "NameError"
    | some la =>
        .ok (some (checkpoint_path ++ "/" ++ checkpoint_filename model data epoch,
          ⟨epoch, model_state, optimizer_state, la.1, la.2, opts⟩))
  else .ok none

end Train

open Train in
/-- C9: at the end of an epoch, if the checkpoint path is non-empty and (in
distributed mode) the process is the designated one, the loop writes to
`checkpoint_path/{model}_{dataset}_{epoch}.pt` a record containing exactly
the epoch index, the model state mapping, the optimizer state mapping, the
last running loss, the last running accuracy, and the configuration object;
if the checkpoint path is the empty string, no checkpoint is written. -/
theorem checkpoint_save_spec {MS OS Opts : Type*} (checkpoint_path model data : String)
    (use_popdist : Bool) (popdist_local_rank : ℕ) (epoch : ℕ)
    (model_state : MS) (optimizer_state : OS) (agg : Option (ℚ × ℚ))
    (loss acc : ℚ) (opts : Opts) :
    (checkpoint_path = "" →
      save_checkpoint checkpoint_path model data use_popdist popdist_local_rank epoch
        model_state optimizer_state agg opts = .ok none) ∧
    (¬ (checkpoint_path = "") → (¬ use_popdist = true ∨ popdist_local_rank = 0) →
      save_checkpoint checkpoint_path model data use_popdist popdist_local_rank epoch
        model_state optimizer_state (some (loss, acc)) opts =
        .ok (some (checkpoint_path ++ "/" ++
            (model ++ "_" ++ data ++ "_" ++ toString epoch ++ ".pt"),
          ⟨epoch, model_state, optimizer_state, loss, acc, opts⟩))) := by
  constructor
  · intro hempty
    have h : ¬ (¬ (checkpoint_path = "") ∧ (¬ use_popdist = true ∨ popdist_local_rank = 0)) := by
      intro hcon
      exact hcon.1 hempty
    simp only [save_checkpoint, if_neg h]
  · intro hpath hrank
    simp only [save_checkpoint, if_pos (And.intro hpath hrank), checkpoint_filename]

/-- C9 witness: a concrete save to `ckpt/resnet50_imagenet_3.pt` together
with a concrete skip for the empty path. -/
theorem checkpoint_save_spec_witness :
    (("" : String) = "" →
      Train.save_checkpoint "" "resnet50" "imagenet" false 0 3
        (17 : ℕ) (19 : ℕ) (some (1/2, 3/4)) (23 : ℕ) = .ok none) ∧
    (¬ (("ckpt" : String) = "") → (¬ false = true ∨ (0 : ℕ) = 0) →
      Train.save_checkpoint "ckpt" "resnet50" "imagenet" false 0 3
        (17 : ℕ) (19 : ℕ) (some (1/2, 3/4)) (23 : ℕ) =
        .ok (some ("ckpt" ++ "/" ++
            ("resnet50" ++ "_" ++ "imagenet" ++ "_" ++ toString 3 ++ ".pt"),
          ⟨3, 17, 19, 1/2, 3/4, 23⟩))) :=
  ⟨(checkpoint_save_spec "" "resnet50" "imagenet" false 0 3 17 19 (some (1/2, 3/4))
      (1/2) (3/4) 23).1,
   (checkpoint_save_spec "ckpt" "resnet50" "imagenet" false 0 3 17 19 (some (1/2, 3/4))
      (1/2) (3/4) 23).2⟩

open Train in
/-- C10: the end-of-epoch checkpoint has an unstated precondition that
metrics are enabled: `aggregated_loss` / `aggregated_acc` are only bound
under `not opts.disable_metrics`, so running with metrics disabled, a
non-empty checkpoint path, a designated process and at least one batch makes
the first end-of-epoch save raise a `NameError` instead of writing a
checkpoint. -/
theorem checkpoint_name_error_when_metrics_disabled {MS OS Opts : Type*}
    (checkpoint_path model data : String) (use_popdist : Bool)
    (popdist_local_rank : ℕ) (epoch : ℕ) (model_state : MS) (optimizer_state : OS)
    (opts : Opts) (batch_metrics : List (ℚ × ℚ))
    (hpath : ¬ (checkpoint_path = ""))
    (hrank : ¬ use_popdist = true ∨ popdist_local_rank = 0)
    (hbatches : batch_metrics ≠ []) :
    save_checkpoint checkpoint_path model data use_popdist popdist_local_rank epoch
      model_state optimizer_state (aggregated_after_epoch true batch_metrics) opts =
      .error "NameError" := by
  have hfold : ∀ (l : List (ℚ × ℚ)) (x : Option (ℚ × ℚ)),
      l.foldl (fun acc lm => if true = true then acc else some lm) x = x := by
    intro l
    induction l with
    | nil => intro x; rfl
    | cons a l ih =>
      intro x
      simp only [List.foldl_cons, if_pos rfl]
      exact ih x
  have hnone : aggregated_after_epoch true batch_metrics = none := by
    unfold aggregated_after_epoch
    exact hfold batch_metrics none
  rw [hnone]
  simp only [save_checkpoint, if_pos (And.intro hpath hrank)]

/-- C10 witness: metrics disabled with one batch, non-empty path `ckpt`. -/
theorem checkpoint_name_error_when_metrics_disabled_witness :
    (¬ (("ckpt" : String) = "")) ∧ (¬ false = true ∨ (0 : ℕ) = 0) ∧
    ([((1 : ℚ), (2 : ℚ))] ≠ []) ∧
    (Train.save_checkpoint "ckpt" "resnet50" "imagenet" false 0 3
        (17 : ℕ) (19 : ℕ) (Train.aggregated_after_epoch true [((1 : ℚ), (2 : ℚ))])
        (23 : ℕ) = .error "NameError") :=
  ⟨by decide, Or.inl (by decide), by decide,
    checkpoint_name_error_when_metrics_disabled "ckpt" "resnet50" "imagenet" false 0 3
      17 19 23 [((1 : ℚ), (2 : ℚ))] (by decide) (Or.inl (by decide)) (by decide)⟩
